import Mathlib

/-!
Shallow embedding of the Cerebro AI backend (`src/server.js`) used to settle
the specification claims: the adaptive-difficulty estimator, the response
validator, the markdown-fence stripping, the analytics aggregator and the
speech-endpoint fallback behaviour.  Machine numbers are modelled by `ℚ`/`ℤ`
and JavaScript objects by structures with `Option` fields (a missing field is
`none`).
-/

/-- JavaScript truthiness of an optional string field: `undefined` and the
empty string are falsy, every other string is truthy. -/
def strTruthy : Option String → Bool
  | none => false
  | some s => if s = "" then false else true

/-- The per-request performance signal received by `POST /api/adaptive/generate`
(`performance.accuracy`, `performance.streak`); both fields are optional. -/
structure PerformanceSignal where
  accuracy : Option ℚ := none
  streak : Option ℤ := none
deriving DecidableEq

/-- Embeds `const avgAccuracy = performance?.accuracy || 0.5` (server.js:446).
The JavaScript `||` substitutes the default for every falsy value, so an
accuracy of exactly 0 is replaced by 0.5, not only an absent accuracy. -/
def avgAccuracy (sig : PerformanceSignal) : ℚ :=
  match sig.accuracy with
  | none => 0.5
  | some a => if a = 0 then 0.5 else a

/-- Embeds `const streak = performance?.streak || 0` (server.js:447); on
integers the falsy-default only rewrites 0 to 0. -/
def streakVal (sig : PerformanceSignal) : ℤ :=
  match sig.streak with
  | none => 0
  | some s => if s = 0 then 0 else s

/-- Embeds the target-difficulty decision of server.js:449-451. -/
def targetDifficulty (sig : PerformanceSignal) : String :=
  if avgAccuracy sig > 0.8 ∧ streakVal sig ≥ 3 then "difícil"
  else if avgAccuracy sig < 0.5 ∨ streakVal sig < 0 then "fácil"
  else "medio"

/-- Embeds the `adaptiveReason` metadata selection (server.js:582-584), which
tests only `avgAccuracy` and never the streak. -/
def adaptiveReason (sig : PerformanceSignal) : String :=
  if avgAccuracy sig > 0.8 then "Alto rendimiento - aumentando dificultad"
  else if avgAccuracy sig < 0.5 then "Bajo rendimiento - reduciendo dificultad"
  else "Rendimiento estable - manteniendo nivel"

/-- Spec-side reading of the data model (§3): accuracy defaults to 0.5 only
when the field is absent. -/
def specAccuracy (sig : PerformanceSignal) : ℚ := sig.accuracy.getD 0.5

/-- Spec-side reading of the data model (§3): streak defaults to 0 only when
the field is absent. -/
def specStreak (sig : PerformanceSignal) : ℤ := sig.streak.getD 0

/-- Spec-side rationale for a difficulty level (§4.6 step 4: the rationale is
"chosen by the same three-way rule as §4.1", i.e. it is determined by the
computed difficulty level). -/
def reasonForLevel (level : String) : String :=
  if level = "difícil" then "Alto rendimiento - aumentando dificultad"
  else if level = "fácil" then "Bajo rendimiento - reduciendo dificultad"
  else "Rendimiento estable - manteniendo nivel"

/-- C1 (counterexample): the claim's Easy clause is false on the code.  For a
signal with accuracy 0 and streak 1 the claim demands Easy ("fácil"), since
accuracy < 0.5 holds and the Hard rule is not met, but the handler computes
"medio": `performance?.accuracy || 0.5` (server.js:446) replaces the falsy
accuracy 0 with the default 0.5 before the rule runs. -/
theorem c1_counterexample :
    ¬ (∀ sig : PerformanceSignal,
        (specAccuracy sig < 0.5 ∨ specStreak sig < 0) →
        ¬ (specAccuracy sig > 0.8 ∧ specStreak sig ≥ 3) →
        targetDifficulty sig = "fácil") := by
  intro h
  have hc := h { accuracy := some 0, streak := some 1 }
    (Or.inl (by norm_num [specAccuracy]))
    (by rintro ⟨ha, -⟩; norm_num [specAccuracy] at ha)
  rw [show targetDifficulty { accuracy := some 0, streak := some 1 } = "medio" by
    norm_num [targetDifficulty, avgAccuracy, streakVal]] at hc
  exact absurd hc (by decide)

/-- C1 (amended): the three-way difficulty rule holds with accuracy and streak
taken as the effective values after the JavaScript falsy-defaulting of
server.js:446-447 (accuracy 0 is treated as 0.5): Hard iff effective
accuracy > 0.8 and effective streak ≥ 3; Easy iff the Hard rule fails and
(effective accuracy < 0.5 or effective streak < 0); Medium otherwise.
Boundary: effective accuracy exactly 0.8 is not Hard, and with effective
streak 0 the Easy outcome can only come from the accuracy clause. -/
theorem c1_theorem (sig : PerformanceSignal) :
    (targetDifficulty sig = "difícil" ↔
      avgAccuracy sig > 0.8 ∧ streakVal sig ≥ 3) ∧
    (targetDifficulty sig = "fácil" ↔
      (¬ (avgAccuracy sig > 0.8 ∧ streakVal sig ≥ 3) ∧
        (avgAccuracy sig < 0.5 ∨ streakVal sig < 0))) ∧
    (¬ (avgAccuracy sig > 0.8 ∧ streakVal sig ≥ 3) →
      ¬ (avgAccuracy sig < 0.5 ∨ streakVal sig < 0) →
      targetDifficulty sig = "medio") ∧
    (avgAccuracy sig = 0.8 → targetDifficulty sig ≠ "difícil") ∧
    (streakVal sig = 0 → targetDifficulty sig = "fácil" → avgAccuracy sig < 0.5) := by
  unfold targetDifficulty
  split_ifs with h1 h2
  · refine ⟨⟨fun _ => h1, fun _ => rfl⟩,
      ⟨fun heq => absurd heq (by decide), fun hc => absurd h1 hc.1⟩,
      fun hn _ => absurd h1 hn, fun heq hd => ?_,
      fun _ heq => absurd heq (by decide)⟩
    rw [heq] at h1
    exact absurd h1.1 (by norm_num)
  · refine ⟨⟨fun heq => absurd heq (by decide), fun hc => absurd hc h1⟩,
      ⟨fun _ => ⟨h1, h2⟩, fun _ => rfl⟩,
      fun _ hn2 => absurd h2 hn2, fun _ => by decide, fun hs _ => ?_⟩
    rcases h2 with ha | hneg
    · exact ha
    · rw [hs] at hneg
      exact absurd hneg (by norm_num)
  · refine ⟨⟨fun heq => absurd heq (by decide), fun hc => absurd hc h1⟩,
      ⟨fun heq => absurd heq (by decide), fun hc => absurd hc.2 h2⟩,
      fun _ _ => rfl, fun _ => by decide, fun _ heq => absurd heq (by decide)⟩

/-- C1 witness: the amended rule applied at accuracy 0.9, streak 5 gives
Hard. -/
theorem c1_witness :
    targetDifficulty { accuracy := some 0.9, streak := some 5 } = "difícil" :=
  (c1_theorem _).1.mpr (by norm_num [avgAccuracy, streakVal])

/-- C10: the estimator substitutes the default for every falsy field, not
only absent ones: accuracy exactly 0 is used as 0.5, so accuracy 0 with
streak 0, 1 or 2 gives Medium rather than Easy; and streak is defaulted to 0
from any falsy value (absent or 0). -/
theorem c10_theorem :
    avgAccuracy { accuracy := some 0, streak := some 0 } = 0.5 ∧
    avgAccuracy { accuracy := none, streak := none } = 0.5 ∧
    (∀ s : ℤ, 0 ≤ s → s < 3 →
      targetDifficulty { accuracy := some 0, streak := some s } = "medio") ∧
    streakVal { accuracy := none, streak := none } = 0 ∧
    streakVal { accuracy := none, streak := some 0 } = 0 := by
  have hsv : ∀ s : ℤ, streakVal { accuracy := some 0, streak := some s } = s := by
    intro s
    by_cases h : s = 0 <;> simp [streakVal, h]
  refine ⟨by norm_num [avgAccuracy], by norm_num [avgAccuracy],
    fun s h0 h3 => ?_, by simp [streakVal], by simp [streakVal]⟩
  have hna : ¬ (avgAccuracy { accuracy := some 0, streak := some s } > 0.8 ∧
      streakVal { accuracy := some 0, streak := some s } ≥ 3) := by
    rintro ⟨ha, -⟩
    norm_num [avgAccuracy] at ha
  have hnb : ¬ (avgAccuracy { accuracy := some 0, streak := some s } < 0.5 ∨
      streakVal { accuracy := some 0, streak := some s } < 0) := by
    rintro (ha | hs)
    · norm_num [avgAccuracy] at ha
    · rw [hsv] at hs
      omega
  unfold targetDifficulty
  rw [if_neg hna, if_neg hnb]

/-- C10 witness: accuracy 0 with streak 1 yields Medium. -/
theorem c10_witness :
    targetDifficulty { accuracy := some 0, streak := some 1 } = "medio" :=
  c10_theorem.2.2.1 1 (by norm_num) (by norm_num)

/-- C4 (counterexample): the adaptive rationale is not chosen by the same
three-way rule as the difficulty estimator.  With accuracy 0.9 and streak 0
the computed difficulty is "medio", whose rationale under the claimed rule is
the level-maintaining one, yet server.js:582-584 emits the
difficulty-increasing rationale because it tests only the accuracy. -/
theorem c4_counterexample :
    adaptiveReason { accuracy := some 0.9, streak := some 0 } =
        "Alto rendimiento - aumentando dificultad" ∧
    targetDifficulty { accuracy := some 0.9, streak := some 0 } = "medio" ∧
    reasonForLevel "medio" ≠ "Alto rendimiento - aumentando dificultad" := by
  refine ⟨by norm_num [adaptiveReason, avgAccuracy], ?_, by decide⟩
  norm_num [targetDifficulty, avgAccuracy, streakVal]

/-- C4 (amended): the rationale is chosen by the accuracy thresholds alone
(effective accuracy > 0.8 increasing, < 0.5 reducing, otherwise maintaining),
ignoring the streak; consequently it agrees with the rationale prescribed by
the computed target difficulty exactly when the streak does not override the
accuracy-based decision: when the Hard rule fully holds, when effective
accuracy < 0.5, or when accuracy lies in [0.5, 0.8] with a non-negative
streak. -/
theorem c4_theorem (sig : PerformanceSignal) :
    adaptiveReason sig = reasonForLevel (targetDifficulty sig) ↔
      ((avgAccuracy sig > 0.8 ∧ streakVal sig ≥ 3) ∨
       avgAccuracy sig < 0.5 ∨
       (0.5 ≤ avgAccuracy sig ∧ avgAccuracy sig ≤ 0.8 ∧ 0 ≤ streakVal sig)) := by
  have r1 : reasonForLevel "difícil" = "Alto rendimiento - aumentando dificultad" := by
    decide
  have r2 : reasonForLevel "fácil" = "Bajo rendimiento - reduciendo dificultad" := by
    decide
  have r3 : reasonForLevel "medio" = "Rendimiento estable - manteniendo nivel" := by
    decide
  unfold adaptiveReason targetDifficulty
  split_ifs with h1 h2 h3 h4 h5 h6 h7 h8
  all_goals simp only [r1, r2, r3]
  · exact iff_of_true trivial (Or.inl h2)
  · refine iff_of_false (by decide) ?_
    rintro (hT | hlt | ⟨-, hle, -⟩)
    · exact h2 hT
    · linarith
    · linarith
  · refine iff_of_false (by decide) ?_
    rintro (hT | hlt | ⟨-, hle, -⟩)
    · exact h2 hT
    · linarith
    · linarith
  · exact absurd h5.1 h1
  · exact iff_of_true trivial (Or.inr (Or.inl h4))
  · exact absurd (Or.inl h4) h6
  · exact absurd h7.1 h1
  · refine iff_of_false (by decide) ?_
    rintro (hT | hlt | ⟨-, -, hs⟩)
    · exact h7 hT
    · exact h4 hlt
    · rcases h8 with h | h
      · exact h4 h
      · omega
  · push_neg at h8
    exact iff_of_true trivial (Or.inr (Or.inr ⟨not_lt.mp h4, not_lt.mp h1, h8.2⟩))

/-- C4 witness: with accuracy 0.3 the rationale agrees with the rationale of
the computed (Easy) difficulty. -/
theorem c4_witness :
    adaptiveReason { accuracy := some 0.3, streak := none } =
      reasonForLevel (targetDifficulty { accuracy := some 0.3, streak := none }) :=
  (c4_theorem _).mpr (Or.inr (Or.inl (by norm_num [avgAccuracy])))

/-- The backtick character, written through its code point. -/
def btChar : Char := Char.ofNat 96

/-- The bare three-backtick fence marker removed by the second `replace` of
server.js:561. -/
def fenceMark : List Char := [btChar, btChar, btChar]

/-- The json-tagged fence marker removed by the first `replace` of
server.js:560. -/
def fenceJsonMark : List Char := fenceMark ++ ['j', 's', 'o', 'n']

/-- Head test: `matchesPat pat l` holds when `l` starts with `pat`. -/
def matchesPat : List Char → List Char → Bool
  | [], _ => true
  | _ :: _, [] => false
  | p :: ps, c :: cs => c == p && matchesPat ps cs

/-- Removes one optional leading newline, the `\n?` of the fence regexes. -/
def dropLf : List Char → List Char
  | [] => []
  | c :: rest => if c = '\n' then rest else c :: rest

/-- Fuel-indexed left-to-right scan removing every occurrence of the
json-tagged fence plus an optional following newline, never rescanning
characters already emitted: the semantics of the global regex replace at
server.js:560. -/
def stripJsonGo : Nat → List Char → List Char
  | 0, l => l
  | _ + 1, [] => []
  | fuel + 1, c :: rest =>
    if matchesPat fenceJsonMark (c :: rest) then stripJsonGo fuel (dropLf (rest.drop 6))
    else c :: stripJsonGo fuel rest

/-- Same scan for the bare fence with optional newline (server.js:561). -/
def stripBtGo : Nat → List Char → List Char
  | 0, l => l
  | _ + 1, [] => []
  | fuel + 1, c :: rest =>
    if matchesPat fenceMark (c :: rest) then stripBtGo fuel (dropLf (rest.drop 2))
    else c :: stripBtGo fuel rest

/-- First replace of server.js:560 on a character list. -/
def stripJson (l : List Char) : List Char := stripJsonGo l.length l

/-- Second replace of server.js:561 on a character list. -/
def stripBt (l : List Char) : List Char := stripBtGo l.length l

/-- Whitespace class removed by JavaScript `String.prototype.trim`. -/
def jsWS (c : Char) : Bool :=
  c == ' ' || c == '\t' || c == '\n' || c == '\r' || c == Char.ofNat 11 || c == Char.ofNat 12

/-- Left half of JavaScript `trim`. -/
def trimLeft (l : List Char) : List Char := l.dropWhile jsWS

/-- Right half of JavaScript `trim`. -/
def trimRight (l : List Char) : List Char := (l.reverse.dropWhile jsWS).reverse

/-- Character-list model of JavaScript `trim`. -/
def trimChars (l : List Char) : List Char := trimRight (trimLeft l)

/-- JavaScript `s.trim()` on strings. -/
def jsTrim (s : String) : String := ⟨trimChars s.data⟩

/-- The fence-stripping transformation of server.js:559-562: remove
json-tagged fences, then bare fences, then trim. -/
def stripFencePipeline (s : String) : String :=
  ⟨trimChars (stripBt (stripJson s.data))⟩

/-- Scanner detecting a three-backtick run anywhere in a character list. -/
def hasFenceMark : List Char → Bool
  | [] => false
  | c :: rest => matchesPat fenceMark (c :: rest) || hasFenceMark rest

theorem matchesPat_append {ps qs l : List Char}
    (h : matchesPat (ps ++ qs) l = true) : matchesPat ps l = true := by
  induction ps generalizing l with
  | nil => rfl
  | cons p ps ih =>
    cases l with
    | nil => simp [matchesPat] at h
    | cons c cs =>
      simp only [List.cons_append, matchesPat, Bool.and_eq_true] at h ⊢
      exact ⟨h.1, ih h.2⟩

theorem matchesPat_app_right {ps l : List Char} (t : List Char)
    (h : matchesPat ps l = true) : matchesPat ps (l ++ t) = true := by
  induction ps generalizing l with
  | nil => rfl
  | cons p ps ih =>
    cases l with
    | nil => simp [matchesPat] at h
    | cons c cs =>
      simp only [List.cons_append, matchesPat, Bool.and_eq_true] at h ⊢
      exact ⟨h.1, ih h.2⟩

theorem dropLf_length_le (l : List Char) : (dropLf l).length ≤ l.length := by
  cases l with
  | nil => simp [dropLf]
  | cons c rest =>
    by_cases h : c = '\n'
    · simp only [dropLf, if_pos h, List.length_cons]
      omega
    · simp [dropLf, h]

theorem length_dropWhile_le (p : Char → Bool) (l : List Char) :
    (l.dropWhile p).length ≤ l.length := by
  induction l with
  | nil => simp
  | cons c rest ih =>
    by_cases h : p c = true
    · rw [List.dropWhile_cons, if_pos h]
      exact le_trans ih (Nat.le_succ _)
    · rw [List.dropWhile_cons, if_neg (by simp [h])]

/-- The emitted head of a backtick-fence pass cannot become a backtick if the
input did not start with one. -/
theorem bt1_stripBtGo (fuel : Nat) (l : List Char) (hf : l.length ≤ fuel)
    (h : matchesPat [btChar] l = false) :
    matchesPat [btChar] (stripBtGo fuel l) = false := by
  cases fuel with
  | zero => simpa [stripBtGo] using h
  | succ f =>
    cases l with
    | nil => simp [stripBtGo, matchesPat]
    | cons c rest =>
      have hc : (c == btChar) = false := by
        simpa [matchesPat] using h
      have hm : matchesPat fenceMark (c :: rest) = false := by
        simp [fenceMark, matchesPat, hc]
      simp [stripBtGo, hm, matchesPat, hc]

/-- The emitted output of a backtick-fence pass cannot start with two
backticks if the input did not. -/
theorem bt2_stripBtGo (fuel : Nat) (l : List Char) (hf : l.length ≤ fuel)
    (h : matchesPat [btChar, btChar] l = false) :
    matchesPat [btChar, btChar] (stripBtGo fuel l) = false := by
  cases fuel with
  | zero => simpa [stripBtGo] using h
  | succ f =>
    cases l with
    | nil => simp [stripBtGo, matchesPat]
    | cons c rest =>
      have hf' : rest.length ≤ f := Nat.le_of_succ_le_succ (by simpa using hf)
      by_cases hc : c = btChar
      · subst hc
        have hr : matchesPat [btChar] rest = false := by
          simpa [matchesPat] using h
        have hm2 : matchesPat [btChar, btChar] rest = false := by
          cases rest with
          | nil => simp [matchesPat]
          | cons d rest2 =>
            have hd : (d == btChar) = false := by
              simpa [matchesPat] using hr
            simp [matchesPat, hd]
        have hm : matchesPat fenceMark (btChar :: rest) = false := by
          simp [fenceMark, matchesPat, hm2]
        have hz := bt1_stripBtGo f rest hf' hr
        simp [stripBtGo, fenceMark, hm, hm2, matchesPat, hz]
      · have hcb : (c == btChar) = false := by
          simp [hc]
        have hm : matchesPat fenceMark (c :: rest) = false := by
          simp [fenceMark, matchesPat, hcb]
        simp [stripBtGo, fenceMark, hm, matchesPat, hcb]

/-- Key invariant: after the bare-fence pass no three-backtick run remains. -/
theorem hasFenceMark_stripBtGo (fuel : Nat) :
    ∀ l : List Char, l.length ≤ fuel → hasFenceMark (stripBtGo fuel l) = false := by
  induction fuel with
  | zero =>
    intro l hf
    have hl : l = [] := List.length_eq_zero.mp (Nat.le_zero.mp hf)
    subst hl
    simp [stripBtGo, hasFenceMark]
  | succ f ih =>
    intro l hf
    cases l with
    | nil => simp [stripBtGo, hasFenceMark]
    | cons c rest =>
      have hf' : rest.length ≤ f := Nat.le_of_succ_le_succ (by simpa using hf)
      rcases Bool.eq_false_or_eq_true (matchesPat fenceMark (c :: rest)) with hm | hm
      · have hlen : (dropLf (rest.drop 2)).length ≤ f := by
          have h1 := dropLf_length_le (rest.drop 2)
          have h2 : (rest.drop 2).length ≤ rest.length := by
            simp [List.length_drop]
          omega
        simp only [stripBtGo]
        rw [if_pos hm]
        exact ih _ hlen
      · have hrec := ih rest hf'
        have hhead : matchesPat fenceMark (c :: stripBtGo f rest) = false := by
          by_cases hc : c = btChar
          · subst hc
            have h2 : matchesPat [btChar, btChar] rest = false := by
              simpa [fenceMark, matchesPat] using hm
            have h2' := bt2_stripBtGo f rest hf' h2
            simpa [fenceMark, matchesPat] using h2'
          · simp [fenceMark, matchesPat, hc]
        simp only [stripBtGo]
        rw [if_neg (by simp [hm])]
        simp [hasFenceMark, hhead, hrec]

/-- A list without fence marker is a fixed point of the bare-fence pass. -/
theorem stripBtGo_of_noFence (fuel : Nat) :
    ∀ l, l.length ≤ fuel → hasFenceMark l = false → stripBtGo fuel l = l := by
  induction fuel with
  | zero =>
    intro l _ _
    rfl
  | succ f ih =>
    intro l hf h
    cases l with
    | nil => rfl
    | cons c rest =>
      have hm : matchesPat fenceMark (c :: rest) = false := by
        rcases Bool.eq_false_or_eq_true (matchesPat fenceMark (c :: rest)) with h1 | h0
        · simp [hasFenceMark, h1] at h
        · exact h0
      have hr : hasFenceMark rest = false := by
        simpa [hasFenceMark, hm] using h
      have hf' : rest.length ≤ f := Nat.le_of_succ_le_succ (by simpa using hf)
      simp [stripBtGo, hm, ih rest hf' hr]

/-- A list without fence marker is a fixed point of the json-fence pass. -/
theorem stripJsonGo_of_noFence (fuel : Nat) :
    ∀ l, l.length ≤ fuel → hasFenceMark l = false → stripJsonGo fuel l = l := by
  induction fuel with
  | zero =>
    intro l _ _
    rfl
  | succ f ih =>
    intro l hf h
    cases l with
    | nil => rfl
    | cons c rest =>
      have hm : matchesPat fenceMark (c :: rest) = false := by
        rcases Bool.eq_false_or_eq_true (matchesPat fenceMark (c :: rest)) with h1 | h0
        · simp [hasFenceMark, h1] at h
        · exact h0
      have hmj : matchesPat fenceJsonMark (c :: rest) = false := by
        rcases Bool.eq_false_or_eq_true (matchesPat fenceJsonMark (c :: rest)) with h1 | h0
        · have h2 : matchesPat fenceMark (c :: rest) = true :=
            matchesPat_append (by simpa [fenceJsonMark] using h1)
          simp [h2] at hm
        · exact h0
      have hr : hasFenceMark rest = false := by
        simpa [hasFenceMark, hm] using h
      have hf' : rest.length ≤ f := Nat.le_of_succ_le_succ (by simpa using hf)
      simp [stripJsonGo, hmj, ih rest hf' hr]

/-- Fence-freeness splits over list concatenation. -/
theorem hasFenceMark_append {a b : List Char} (h : hasFenceMark (a ++ b) = false) :
    hasFenceMark a = false ∧ hasFenceMark b = false := by
  induction a with
  | nil => exact ⟨rfl, h⟩
  | cons c a' ih =>
    rw [List.cons_append] at h
    have hm : matchesPat fenceMark (c :: (a' ++ b)) = false := by
      rcases Bool.eq_false_or_eq_true (matchesPat fenceMark (c :: (a' ++ b))) with h1 | h0
      · simp [hasFenceMark, h1] at h
      · exact h0
    have hrest : hasFenceMark (a' ++ b) = false := by
      simpa [hasFenceMark, hm] using h
    obtain ⟨ha', hb⟩ := ih hrest
    refine ⟨?_, hb⟩
    have hmm : matchesPat fenceMark (c :: a') = false := by
      rcases Bool.eq_false_or_eq_true (matchesPat fenceMark (c :: a')) with h1 | h0
      · have h2 := matchesPat_app_right b h1
        rw [List.cons_append] at h2
        simp [h2] at hm
      · exact h0
    simp [hasFenceMark, hmm, ha']

theorem dropWhile_sfx (p : Char → Bool) (l : List Char) :
    ∃ t, l = t ++ l.dropWhile p := by
  induction l with
  | nil => exact ⟨[], rfl⟩
  | cons c rest ih =>
    by_cases h : p c = true
    · obtain ⟨t, ht⟩ := ih
      refine ⟨c :: t, ?_⟩
      rw [List.dropWhile_cons, if_pos h, List.cons_append]
      exact congrArg (c :: ·) ht
    · refine ⟨[], ?_⟩
      rw [List.dropWhile_cons, if_neg (by simp [h]), List.nil_append]

theorem trimRight_decomp (l : List Char) : ∃ t, l = trimRight l ++ t := by
  have h : l = (l.reverse.dropWhile jsWS).reverse ++ (l.reverse.takeWhile jsWS).reverse := by
    rw [← List.reverse_append, List.takeWhile_append_dropWhile, List.reverse_reverse]
  exact ⟨(l.reverse.takeWhile jsWS).reverse, h⟩

/-- Trimming preserves fence-freeness (it only removes a contiguous head and
tail). -/
theorem hasFenceMark_trimChars {l : List Char} (h : hasFenceMark l = false) :
    hasFenceMark (trimChars l) = false := by
  obtain ⟨t, ht⟩ := dropWhile_sfx jsWS l
  have h1 : hasFenceMark (trimLeft l) = false := by
    have := (hasFenceMark_append (a := t) (b := l.dropWhile jsWS) (ht ▸ h)).2
    simpa [trimLeft] using this
  obtain ⟨u, hu⟩ := trimRight_decomp (trimLeft l)
  exact (hasFenceMark_append (hu ▸ h1)).1

theorem dropWhile_idem (p : Char → Bool) (l : List Char) :
    (l.dropWhile p).dropWhile p = l.dropWhile p := by
  induction l with
  | nil => rfl
  | cons c rest ih =>
    by_cases h : p c = true
    · rw [List.dropWhile_cons, if_pos h, ih]
    · rw [List.dropWhile_cons, if_neg (by simp [h]), List.dropWhile_cons,
        if_neg (by simp [h])]

theorem trimRight_idem (l : List Char) : trimRight (trimRight l) = trimRight l := by
  unfold trimRight
  rw [List.reverse_reverse, dropWhile_idem]

/-- A `dropWhile` fixed point passes the fixed-point property to each of its
prefixes. -/
theorem dropWhile_fix_of_decomp (p : Char → Bool) (l l2 : List Char)
    (h : l.dropWhile p = l) (hpre : ∃ t, l = l2 ++ t) :
    l2.dropWhile p = l2 := by
  obtain ⟨t, ht⟩ := hpre
  cases l2 with
  | nil => rfl
  | cons c rest =>
    have hc : p c = false := by
      rcases Bool.eq_false_or_eq_true (p c) with h1 | h0
      · subst ht
        rw [List.cons_append, List.dropWhile_cons, if_pos h1] at h
        have h2 := congrArg List.length h
        have h3 := length_dropWhile_le p (rest ++ t)
        simp only [List.length_cons] at h2
        omega
      · exact h0
    rw [List.dropWhile_cons, if_neg (by simp [hc])]

theorem trimChars_idem (l : List Char) : trimChars (trimChars l) = trimChars l := by
  unfold trimChars
  have hfix : (trimLeft l).dropWhile jsWS = trimLeft l := by
    unfold trimLeft
    exact dropWhile_idem _ _
  have hfix2 : trimLeft (trimRight (trimLeft l)) = trimRight (trimLeft l) := by
    unfold trimLeft
    exact dropWhile_fix_of_decomp jsWS (trimLeft l) _ hfix (trimRight_decomp _)
  rw [hfix2, trimRight_idem]

/-- Output of the bare-fence pass contains no fence marker. -/
theorem hasFenceMark_stripBt (l : List Char) : hasFenceMark (stripBt l) = false :=
  hasFenceMark_stripBtGo l.length l le_rfl

theorem stripBt_of_noFence {l : List Char} (h : hasFenceMark l = false) :
    stripBt l = l :=
  stripBtGo_of_noFence l.length l le_rfl h

theorem stripJson_of_noFence {l : List Char} (h : hasFenceMark l = false) :
    stripJson l = l :=
  stripJsonGo_of_noFence l.length l le_rfl h

/-- List-level idempotence of the whole strip-strip-trim chain. -/
theorem stripAll_idem (l : List Char) :
    trimChars (stripBt (stripJson (trimChars (stripBt (stripJson l))))) =
      trimChars (stripBt (stripJson l)) := by
  have h1 : hasFenceMark (stripBt (stripJson l)) = false := hasFenceMark_stripBt _
  have h2 : hasFenceMark (trimChars (stripBt (stripJson l))) = false :=
    hasFenceMark_trimChars h1
  rw [stripJson_of_noFence h2, stripBt_of_noFence h2, trimChars_idem]

/-- C7: the fence-stripping transformation of server.js:559-562 is idempotent
on every input string, and on a string containing no three-backtick run it
only trims whitespace (an unfenced payload is left unchanged apart from
trimming). -/
theorem c7_theorem (s : String) :
    stripFencePipeline (stripFencePipeline s) = stripFencePipeline s ∧
    (hasFenceMark s.data = false → stripFencePipeline s = jsTrim s) := by
  refine ⟨?_, fun h => ?_⟩
  · show (⟨trimChars (stripBt (stripJson (trimChars (stripBt (stripJson s.data)))))⟩ : String) =
      ⟨trimChars (stripBt (stripJson s.data))⟩
    exact congrArg String.mk (stripAll_idem s.data)
  · show (⟨trimChars (stripBt (stripJson s.data))⟩ : String) = ⟨trimChars s.data⟩
    rw [stripJson_of_noFence h, stripBt_of_noFence h]

/-- C7 witness: idempotence at a fenced payload, and pure trimming at an
unfenced payload. -/
theorem c7_witness :
    stripFencePipeline (stripFencePipeline "```json\nhola mundo\n```") =
        stripFencePipeline "```json\nhola mundo\n```" ∧
    stripFencePipeline "  sin cerca  " = jsTrim "  sin cerca  " :=
  ⟨(c7_theorem _).1, (c7_theorem _).2 (by decide)⟩

example : stripFencePipeline "```json\nhola mundo\n```" = "hola mundo" := by decide

example : stripFencePipeline "```\nhola mundo\n```" = "hola mundo" := by decide

example : stripFencePipeline "```json\nhola mundo" = "hola mundo" := by decide

example : stripFencePipeline "  hola mundo  " = "hola mundo" := by decide

/-- Model of a parsed JSON/JavaScript value. -/
inductive JsVal where
  | str (s : String)
  | num (q : ℚ)
  | bool (b : Bool)
  | null
  | arr (elems : List JsVal)
  | obj (fields : List (String × JsVal))

/-- JavaScript truthiness of a value. -/
def jsTruthy : JsVal → Bool
  | .str s => if s = "" then false else true
  | .num q => if q = 0 then false else true
  | .bool b => b
  | .null => false
  | .arr _ => true
  | .obj _ => true

/-- Truthiness of an optional field (`undefined` is falsy). -/
def fieldTruthy : Option JsVal → Bool
  | none => false
  | some v => jsTruthy v

/-- The three fields inspected by the validator of server.js:567; a field
that is absent in the parsed object is `none` (`undefined`). -/
structure Payload where
  question : Option JsVal := none
  options : Option JsVal := none
  correctIndex : Option JsVal := none

/-- Embeds `Array.isArray` on an optional field. -/
def fieldIsArray : Option JsVal → Bool
  | some (.arr _) => true
  | _ => false

/-- Embeds the validation of server.js:567-569:
`if (!questionData.question || !Array.isArray(questionData.options) ||
questionData.correctIndex === undefined) throw`; `true` means accepted. -/
def validRequiredFields (p : Payload) : Bool :=
  if fieldTruthy p.question = false ∨ fieldIsArray p.options = false ∨
      p.correctIndex.isNone = true then false
  else true

/-- Is this value a string? -/
def isStringVal : JsVal → Bool
  | .str _ => true
  | _ => false

/-- Spec-side schema of §4.6 step 3 / §3 GeneratedQuestion: `question` a
non-empty string, `options` exactly four strings, `correctIndex` a defined
integer in the range 0..3. -/
def schemaValid (p : Payload) : Bool :=
  (match p.question with
    | some (.str s) => if s = "" then false else true
    | _ => false) &&
  (match p.options with
    | some (.arr xs) => (if xs.length = 4 then true else false) && xs.all isStringVal
    | _ => false) &&
  (match p.correctIndex with
    | some (.num q) => (if q.den = 1 then true else false) &&
        (if 0 ≤ q.num ∧ q.num ≤ 3 then true else false)
    | _ => false)

/-- A payload whose `options` array has only three entries. -/
def payloadThreeOptions : Payload :=
  { question := some (.str "p"),
    options := some (.arr [.str "a", .str "b", .str "c"]),
    correctIndex := some (.num 0) }

/-- A payload whose `options` array has five entries. -/
def payloadFiveOptions : Payload :=
  { question := some (.str "p"),
    options := some (.arr [.str "a", .str "b", .str "c", .str "d", .str "e"]),
    correctIndex := some (.num 0) }

/-- A payload with no `correctIndex` field. -/
def payloadNoIndex : Payload :=
  { question := some (.str "p"),
    options := some (.arr [.str "a", .str "b", .str "c", .str "d"]),
    correctIndex := none }

/-- C2 (counterexample): the validator does not reject exactly the
schema-violating payloads.  A payload whose `options` array has three entries
violates the schema (which demands exactly four strings), yet
server.js:567 accepts it, since only `Array.isArray` is checked. -/
theorem c2_counterexample :
    ¬ (∀ p : Payload, validRequiredFields p = true ↔ schemaValid p = true) := by
  intro h
  have h3 := (h payloadThreeOptions).mp (by decide)
  exact absurd h3 (by decide)

/-- C2 (amended): the validator accepts a parsed payload iff `question` is
truthy, `options` is an array (of any length and content) and `correctIndex`
is defined; in particular a payload missing `correctIndex` is rejected, but
the options length (3, 4 or 5 entries) and the `correctIndex` range are never
checked. -/
theorem c2_theorem :
    (∀ p : Payload, validRequiredFields p = true ↔
      (fieldTruthy p.question = true ∧ fieldIsArray p.options = true ∧
        p.correctIndex ≠ none)) ∧
    (∀ p : Payload, p.correctIndex = none → validRequiredFields p = false) ∧
    validRequiredFields payloadThreeOptions = true ∧
    validRequiredFields payloadFiveOptions = true ∧
    schemaValid payloadThreeOptions = false ∧
    schemaValid payloadFiveOptions = false := by
  refine ⟨fun p => ?_, fun p h => ?_, by decide, by decide, by decide, by decide⟩
  · unfold validRequiredFields
    split_ifs with h
    · simp only [false_iff]
      rintro ⟨hq, ho, hi⟩
      rcases h with h | h | h
      · rw [hq] at h
        exact absurd h (by decide)
      · rw [ho] at h
        exact absurd h (by decide)
      · exact hi (Option.isNone_iff_eq_none.mp h)
    · push_neg at h
      simp only [true_iff]
      refine ⟨?_, ?_, fun heq => h.2.2 (by simp [heq])⟩
      · rcases Bool.eq_false_or_eq_true (fieldTruthy p.question) with h1 | h0
        · exact h1
        · exact absurd h0 h.1
      · rcases Bool.eq_false_or_eq_true (fieldIsArray p.options) with h1 | h0
        · exact h1
        · exact absurd h0 h.2.1
  · unfold validRequiredFields
    rw [if_pos (Or.inr (Or.inr (by simp [h])))]

/-- C2 witness: the amended rejection rule applied to the payload with no
`correctIndex`. -/
theorem c2_witness : validRequiredFields payloadNoIndex = false :=
  c2_theorem.2.1 payloadNoIndex rfl

/-- The fixed message of the error thrown when parsing or validating the
provider text fails (server.js:572). -/
def invalidFormatMsg : String := "AI generated invalid response format"

/-- A thrown JavaScript `Error`, reduced to its message. -/
structure ThrownError where
  message : String
deriving DecidableEq

/-- Embeds the parse-and-validate step of server.js:558-573.  `JSON.parse` is
an external language built-in, so it enters as the parameter `parse`; the raw
provider text is first fence-stripped, then parsed, then the required-field
check runs.  Both the parse failure and the validation failure are caught by
the inner `catch`, which rethrows the one fixed `invalidFormatMsg` error; the
raw text is only logged, never placed in the thrown error. -/
def parseValidate (parse : String → Option Payload) (raw : String) :
    Except ThrownError Payload :=
  match parse (stripFencePipeline raw) with
  | none => .error ⟨invalidFormatMsg⟩
  | some questionData =>
      if validRequiredFields questionData = true then .ok questionData
      else .error ⟨invalidFormatMsg⟩

/-- The JSON body of the 500 response built by the outer catch of
server.js:590-597. -/
structure GenErrorBody where
  success : Bool
  error : String
  details : Option String
deriving DecidableEq

/-- Embeds the outer catch handler (server.js:590-597): status 500, message
`error.message || 'Error generating adaptive content'`, and, only in
development mode, `error.toString()` as `details`. -/
def generateErrorResponse (devMode : Bool) (e : ThrownError) : Nat × GenErrorBody :=
  (500,
    { success := false,
      error := if e.message = "" then "Error generating adaptive content" else e.message,
      details := if devMode then some ("Error: " ++ e.message) else none })

/-- Every error leaving the parse-and-validate step carries exactly the fixed
generic message, whatever the raw text and whatever the parse outcome. -/
theorem parseValidate_error_shape (parse : String → Option Payload) (raw : String)
    (e : ThrownError) (h : parseValidate parse raw = .error e) :
    e = ⟨invalidFormatMsg⟩ := by
  unfold parseValidate at h
  split at h
  · exact ((Except.error.injEq _ _).mp h).symm
  · split_ifs at h with hv
    exact ((Except.error.injEq _ _).mp h).symm

/-- C6: whenever parsing or schema validation of the provider text fails, the
caller-facing 500 response is built from the one fixed generic message: for
any two raw texts and any two parse functions that both fail (in particular,
malformed JSON — `parse` returns nothing — versus well-formed but
schema-invalid JSON), the user-facing error responses are identical, and the
message is the fixed `invalidFormatMsg`, so the raw provider text never
reaches the caller. -/
theorem c6_theorem (parse₁ parse₂ : String → Option Payload) (raw₁ raw₂ : String)
    (devMode : Bool) (e₁ e₂ : ThrownError)
    (h₁ : parseValidate parse₁ raw₁ = .error e₁)
    (h₂ : parseValidate parse₂ raw₂ = .error e₂) :
    generateErrorResponse devMode e₁ = generateErrorResponse devMode e₂ ∧
    e₁.message = invalidFormatMsg := by
  rw [parseValidate_error_shape parse₁ raw₁ e₁ h₁,
    parseValidate_error_shape parse₂ raw₂ e₂ h₂]
  exact ⟨rfl, rfl⟩

/-- C6 witness: a malformed-JSON failure (the parse function yields nothing)
and a schema-invalid failure (a parsed payload missing `correctIndex`)
produce identical user-facing error responses with the fixed message. -/
theorem c6_witness :
    generateErrorResponse false ⟨invalidFormatMsg⟩ =
        generateErrorResponse false ⟨invalidFormatMsg⟩ ∧
    (ThrownError.mk invalidFormatMsg).message = invalidFormatMsg :=
  c6_theorem (fun _ => none) (fun _ => some payloadNoIndex)
    "esto no es JSON" "respuesta" false ⟨invalidFormatMsg⟩ ⟨invalidFormatMsg⟩
    rfl (by rfl)

/-- Request body of `POST /api/language/speak` (server.js:887). -/
structure SpeakRequest where
  text : Option String := none
  language : Option String := none
  voice : Option String := none
deriving DecidableEq

/-- The two credential environment variables read by the speech handler
(server.js:899). -/
structure SpeakEnv where
  openaiKey : Option String := none
  openrouterKey : Option String := none
deriving DecidableEq

/-- Outcome of the external text-to-speech call: a successful body, a
non-success HTTP status, or a thrown error (network failure etc.). -/
inductive TtsOutcome where
  | ok (audioB64 : String)
  | httpFail
  | thrown
deriving DecidableEq

/-- Response of the speech endpoint as seen by the caller. -/
structure SpeakResponse where
  status : Nat
  success : Bool
  error : Option String
  audioUrl : Option String
  useNativeSpeech : Option Bool
  message : Option String
deriving DecidableEq

/-- The soft-success fallback body directing the client to browser speech. -/
def speakFallback (msg : String) : SpeakResponse :=
  { status := 200, success := true, error := none, audioUrl := none,
    useNativeSpeech := some true, message := some msg }

/-- Embeds `process.env.OPENAI_API_KEY || process.env.OPENROUTER_API_KEY`
(server.js:899): the first truthy of the two keys. -/
def effectiveKey (env : SpeakEnv) : Option String :=
  if strTruthy env.openaiKey = true then env.openaiKey
  else if strTruthy env.openrouterKey = true then env.openrouterKey
  else none

/-- Embeds the `POST /api/language/speak` handler (server.js:885-966): a falsy
`text` is answered with a hard 400; afterwards a missing key, a non-success
provider status and a thrown error all degrade to the 200 soft-success
fallback, and a provider success returns the audio as a data URI. -/
def speakHandler (req : SpeakRequest) (env : SpeakEnv) (outcome : TtsOutcome) :
    SpeakResponse :=
  if strTruthy req.text = false then
    { status := 400, success := false, error := some "Text is required",
      audioUrl := none, useNativeSpeech := none, message := none }
  else
    match effectiveKey env with
    | none => speakFallback "No API key - using browser speech"
    | some _ =>
        match outcome with
        | .ok b =>
            { status := 200, success := true, error := none,
              audioUrl := some ("data:audio/mp3;base64," ++ b),
              useNativeSpeech := some false, message := none }
        | .httpFail => speakFallback "OpenAI TTS failed - using browser fallback"
        | .thrown => speakFallback "Error - using browser fallback"

/-- C9 (counterexample): not every request to the speech endpoint receives a
200 soft-success response — a request with no `text` field receives a hard
400 (server.js:889-894), contradicting the claim's "for every input". -/
theorem c9_counterexample :
    (speakHandler { text := none } { openaiKey := some "k" } (.ok "zzz")).status = 400 ∧
    (speakHandler { text := none } { openaiKey := some "k" } (.ok "zzz")).success = false := by
  constructor <;> rfl

/-- C9 (amended): for every request whose `text` is present and non-empty,
the speech endpoint answers 200 with `success = true` for every environment
and every provider outcome, and on every failure mode after the text check
(missing/falsy credentials, provider non-success, thrown error) it degrades
to the `audioUrl = null`, `useNativeSpeech = true` client-side fallback; a
request with falsy `text` instead receives a hard 400. -/
theorem c9_theorem (req : SpeakRequest) (env : SpeakEnv) (outcome : TtsOutcome)
    (htext : strTruthy req.text = true) :
    (speakHandler req env outcome).status = 200 ∧
    (speakHandler req env outcome).success = true ∧
    ((effectiveKey env = none ∨ outcome = .httpFail ∨ outcome = .thrown) →
      (speakHandler req env outcome).audioUrl = none ∧
      (speakHandler req env outcome).useNativeSpeech = some true) := by
  unfold speakHandler
  rw [if_neg (by simp [htext])]
  cases hk : effectiveKey env with
  | none => exact ⟨rfl, rfl, fun _ => ⟨rfl, rfl⟩⟩
  | some k =>
    cases outcome with
    | ok b =>
      refine ⟨rfl, rfl, ?_⟩
      rintro (h | h | h)
      · exact absurd h (by simp)
      · exact absurd h (by simp)
      · exact absurd h (by simp)
    | httpFail => exact ⟨rfl, rfl, fun _ => ⟨rfl, rfl⟩⟩
    | thrown => exact ⟨rfl, rfl, fun _ => ⟨rfl, rfl⟩⟩

/-- C9 witness: a request with text, no keys and a thrown provider error gets
the 200 fallback. -/
theorem c9_witness :
    (speakHandler { text := some "hola" } {} .thrown).status = 200 ∧
    (speakHandler { text := some "hola" } {} .thrown).audioUrl = none :=
  ⟨(c9_theorem { text := some "hola" } {} .thrown (by decide)).1,
   ((c9_theorem { text := some "hola" } {} .thrown (by decide)).2.2
     (Or.inr (Or.inr rfl))).1⟩

/-- A caller-supplied answer-history record (§3 QuestionRecord). -/
structure QuestionRecord where
  topic : Option String := none
  difficulty : Option String := none
  correct : Bool := false
deriving DecidableEq

/-- Embeds the recent-topics computation of server.js:485-487:
`questionHistory ? questionHistory.slice(-5).map(q => q.topic)
.filter(Boolean).join(', ') : ''` — take the last five records first, then
keep the truthy topics. -/
def recentTopics (questionHistory : Option (List QuestionRecord)) : String :=
  match questionHistory with
  | none => ""
  | some h =>
      String.intercalate ", "
        ((((h.drop (h.length - 5)).map (fun q => q.topic)).filter strTruthy).map
          (fun t => t.getD ""))

/-- The topics of the topic-bearing records of a list, in order. -/
def bearingTopics (l : List QuestionRecord) : List String :=
  (l.filter (fun q => strTruthy q.topic)).map (fun q => q.topic.getD "")

/-- Spec-side reading of the claim: the topics of up to the last five
topic-bearing records — filter the topicless records out first, then take the
trailing window of five. -/
def lastTopicsOfBearing (h : List QuestionRecord) : String :=
  String.intercalate ", "
    ((bearingTopics h).drop ((bearingTopics h).length - 5))

/-- A record carrying a topic. -/
def topicRecord (t : String) : QuestionRecord := { topic := some t }

/-- Six records: five topic-bearing ones followed by a topicless one. -/
def historySixRecords : List QuestionRecord :=
  [topicRecord "a", topicRecord "b", topicRecord "c", topicRecord "d", topicRecord "e",
   { topic := none }]

/-- C5 (counterexample): the code slices the last five records first and only
then discards topicless ones, so for five topic-bearing records followed by a
topicless one it returns the topics "b, c, d, e" — not the claimed topics of
the last five topic-bearing records, which are "a, b, c, d, e". -/
theorem c5_counterexample :
    recentTopics (some historySixRecords) = "b, c, d, e" ∧
    lastTopicsOfBearing historySixRecords = "a, b, c, d, e" ∧
    recentTopics (some historySixRecords) ≠ lastTopicsOfBearing historySixRecords := by
  refine ⟨by decide, by decide, ?_⟩
  intro h
  rw [show recentTopics (some historySixRecords) = "b, c, d, e" from by decide,
    show lastTopicsOfBearing historySixRecords = "a, b, c, d, e" from by decide] at h
  exact absurd h (by decide)

theorem recentTopics_eq_bearing (h : List QuestionRecord) :
    recentTopics (some h) =
      String.intercalate ", " (bearingTopics (h.drop (h.length - 5))) := by
  show String.intercalate ", "
      ((((h.drop (h.length - 5)).map (fun q => q.topic)).filter strTruthy).map
        (fun t => t.getD "")) =
    String.intercalate ", " (bearingTopics (h.drop (h.length - 5)))
  unfold bearingTopics
  rw [List.filter_map, List.map_map]
  rfl

/-- C5 (amended): the filter returns the comma-joined topics of the
topic-bearing records among the last five records (slice first, then omit
topicless records), in original order; for a history of seven records all
bearing topics this is exactly the last five topics, and an empty or absent
history yields the empty string. -/
theorem c5_theorem :
    recentTopics none = "" ∧
    recentTopics (some []) = "" ∧
    (∀ h : List QuestionRecord,
      recentTopics (some h) =
        String.intercalate ", " (bearingTopics (h.drop (h.length - 5)))) ∧
    (∀ h : List QuestionRecord, h.length = 7 →
      (∀ q ∈ h, strTruthy q.topic = true) →
      recentTopics (some h) =
        String.intercalate ", " ((h.drop 2).map (fun q => q.topic.getD ""))) := by
  refine ⟨rfl, by decide, recentTopics_eq_bearing, fun h hlen hall => ?_⟩
  rw [recentTopics_eq_bearing, hlen]
  norm_num
  congr 1
  unfold bearingTopics
  rw [List.filter_eq_self.mpr (fun a ha => hall a (List.drop_subset _ _ ha))]
  exact List.map_drop _ _ _

/-- C5 witness: a history of seven topic-bearing records yields exactly the
last five topics, comma-joined in original order. -/
theorem c5_witness :
    recentTopics (some [topicRecord "t1", topicRecord "t2", topicRecord "t3",
        topicRecord "t4", topicRecord "t5", topicRecord "t6", topicRecord "t7"]) =
      String.intercalate ", "
        (([topicRecord "t1", topicRecord "t2", topicRecord "t3", topicRecord "t4",
          topicRecord "t5", topicRecord "t6", topicRecord "t7"].drop 2).map
          (fun q => q.topic.getD "")) :=
  c5_theorem.2.2.2 _ (by decide) (by decide)

/-- Per-record numeric weight of server.js:624-631: the switch over
`q.difficulty` with default branch 2. -/
def difficultyWeight (q : QuestionRecord) : ℚ :=
  match q.difficulty with
  | some "fácil" => 1
  | some "medio" => 2
  | some "difícil" => 3
  | _ => 2

/-- Spec-side per-record weight (§4.7): Easy = 1, Medium = 2, Hard = 3, and
an unrecognized difficulty defaults to Medium's weight. -/
def specWeight (q : QuestionRecord) : ℚ :=
  match q.difficulty with
  | some "fácil" => 1
  | some "medio" => 2
  | some "difícil" => 3
  | _ => 2

theorem difficultyWeight_eq_spec : difficultyWeight = specWeight :=
  funext fun _ => rfl

/-- A per-tier `{ correct, total }` counter. -/
structure TierCount where
  correct : Nat
  total : Nat
deriving DecidableEq

/-- The fixed three-key `byDifficulty` object of server.js:635-639. -/
structure ByDifficulty where
  facil : TierCount
  medioTier : TierCount
  dificil : TierCount
deriving DecidableEq

/-- All counters start at zero. -/
def initByDifficulty : ByDifficulty :=
  { facil := ⟨0, 0⟩, medioTier := ⟨0, 0⟩, dificil := ⟨0, 0⟩ }

/-- Embeds `const diff = q.difficulty || 'medio'` (server.js:642). -/
def effectiveDifficulty (q : QuestionRecord) : String :=
  match q.difficulty with
  | none => "medio"
  | some s => if s = "" then "medio" else s

/-- One step of the tally loop of server.js:641-645.  Indexing the
`byDifficulty` object with any key other than the three literal tiers
dereferences `undefined` and throws a `TypeError`, modelled by the error
case. -/
def tallyStep (b : ByDifficulty) (q : QuestionRecord) : Except Unit ByDifficulty :=
  let inc : TierCount → TierCount := fun c =>
    { correct := c.correct + (if q.correct then 1 else 0), total := c.total + 1 }
  if effectiveDifficulty q = "fácil" then .ok { b with facil := inc b.facil }
  else if effectiveDifficulty q = "medio" then .ok { b with medioTier := inc b.medioTier }
  else if effectiveDifficulty q = "difícil" then .ok { b with dificil := inc b.dificil }
  else .error ()

/-- The `history.forEach` tally (server.js:641-645), stopping at the thrown
`TypeError` when a record carries an unrecognized non-empty difficulty. -/
def tally : ByDifficulty → List QuestionRecord → Except Unit ByDifficulty
  | b, [] => .ok b
  | b, q :: rest =>
      match tallyStep b q with
      | .ok b2 => tally b2 rest
      | .error e => .error e

/-- Embeds `Math.round` for the non-negative values occurring here: nearest
integer, halves upward. -/
def jsRound (x : ℚ) : ℤ := ⌊x + 1/2⌋

/-- Embeds `Number.prototype.toFixed(1)` idealized over exact rationals: the
reported value in tenths. -/
def toFixedTenths (x : ℚ) : ℤ := ⌊x * 10 + 1/2⌋

/-- The `[name, stats]` entries of `Object.entries(byDifficulty)` in
insertion order (server.js:651). -/
def tierEntries (b : ByDifficulty) : List (String × TierCount) :=
  [("fácil", b.facil), ("medio", b.medioTier), ("difícil", b.dificil)]

/-- Per-tier accuracy `(stats.correct / stats.total) * 100` (server.js:653). -/
def tierAccuracy (c : TierCount) : ℚ := (c.correct : ℚ) / (c.total : ℚ) * 100

/-- server.js:651-657: the tiers with at least one attempt and accuracy at
least 75, with their rounded accuracies, in entry order. -/
def strengthAreasOf (b : ByDifficulty) : List (String × ℤ) :=
  (tierEntries b).filterMap fun e =>
    if 0 < e.2.total ∧ 75 ≤ tierAccuracy e.2 then some (e.1, jsRound (tierAccuracy e.2))
    else none

/-- server.js:651-657: the tiers with at least one attempt and accuracy below
50, with their rounded accuracies, in entry order. -/
def improvementAreasOf (b : ByDifficulty) : List (String × ℤ) :=
  (tierEntries b).filterMap fun e =>
    if 0 < e.2.total ∧ tierAccuracy e.2 < 50 then some (e.1, jsRound (tierAccuracy e.2))
    else none

/-- The analytics summary built at server.js:674-688 for a non-empty
history.  `averageDifficulty` keeps the exact mean, `averageDifficultyTenths`
its one-decimal rendering. -/
structure AnalyticsSummary where
  totalQuestions : Nat
  accuracy : ℤ
  correctCount : Nat
  incorrectCount : Nat
  averageDifficulty : ℚ
  averageDifficultyTenths : ℤ
  byDifficulty : ByDifficulty
  strengthAreas : List (String × ℤ)
  improvementAreas : List (String × ℤ)
  learningCurve : List (Nat × Nat × Option String)
  currentStreak : Nat

/-- Assembles the non-empty-history summary from the tallied counters
(server.js:619-688). -/
def mkAnalytics (history : List QuestionRecord) (byD : ByDifficulty) :
    AnalyticsSummary :=
  let correct := (history.filter (fun q => q.correct)).length
  let accuracy : ℚ := ((correct : ℚ) / (history.length : ℚ)) * 100
  let avgDifficulty : ℚ :=
    ((history.map difficultyWeight).sum) / ((history.map difficultyWeight).length : ℚ)
  { totalQuestions := history.length
    accuracy := jsRound accuracy
    correctCount := correct
    incorrectCount := history.length - correct
    averageDifficulty := avgDifficulty
    averageDifficultyTenths := toFixedTenths avgDifficulty
    byDifficulty := byD
    strengthAreas := strengthAreasOf byD
    improvementAreas := improvementAreasOf byD
    learningCurve :=
      (history.drop (history.length - 10)).enum.map
        (fun p => (p.1 + 1, if p.2.correct then 1 else 0, p.2.difficulty))
    currentStreak := (history.reverse.takeWhile (fun q => q.correct)).length }

/-- Result of `POST /api/adaptive/analytics`: the fixed empty-state body or a
full summary. -/
inductive AnalyticsResult where
  | emptyState
  | summary (a : AnalyticsSummary)

/-- Embeds the analytics handler (server.js:601-693): absent or empty history
answers the empty-state body; otherwise the metrics are computed, and a
thrown `TypeError` in the tally surfaces as the 500 error path. -/
def analyticsHandler (histOpt : Option (List QuestionRecord)) :
    Except Unit AnalyticsResult :=
  match histOpt with
  | none => .ok .emptyState
  | some history =>
      if history.length = 0 then .ok .emptyState
      else
        match tally initByDifficulty history with
        | .error e => .error e
        | .ok byD => .ok (.summary (mkAnalytics history byD))

/-- A record whose difficulty is a non-empty string outside the three known
levels. -/
def unknownDifficultyRecord : QuestionRecord :=
  { topic := none, difficulty := some "imposible", correct := true }

/-- C3 (counterexample): a non-empty history containing a record with an
unrecognized non-empty difficulty makes the handler throw in the
`byDifficulty` tally (`byDifficulty['imposible'].total++` on `undefined`), so
the endpoint answers 500, not the claimed 200 — even though the weight map
itself would have weighted that record as Medium (2). -/
theorem c3_counterexample :
    analyticsHandler (some [unknownDifficultyRecord]) = .error () ∧
    difficultyWeight unknownDifficultyRecord = 2 := by
  exact ⟨rfl, rfl⟩

/-- A record difficulty accepted by the tally: absent, empty, or one of the
three known levels. -/
def knownOrFalsyDifficulty (q : QuestionRecord) : Prop :=
  effectiveDifficulty q = "fácil" ∨ effectiveDifficulty q = "medio" ∨
    effectiveDifficulty q = "difícil"

instance : DecidablePred knownOrFalsyDifficulty := fun q => by
  unfold knownOrFalsyDifficulty
  infer_instance

/-- The tally succeeds exactly when it never meets an unrecognized non-empty
difficulty. -/
theorem tally_ok (history : List QuestionRecord)
    (h : ∀ q ∈ history, knownOrFalsyDifficulty q) :
    ∀ b, ∃ b2, tally b history = .ok b2 := by
  induction history with
  | nil =>
    intro b
    exact ⟨b, rfl⟩
  | cons q rest ih =>
    intro b
    have hq := h q (List.mem_cons_self _ _)
    have hrest : ∀ q2 ∈ rest, knownOrFalsyDifficulty q2 :=
      fun q2 hm => h q2 (List.mem_cons_of_mem _ hm)
    have hstep : ∃ b2, tallyStep b q = .ok b2 := by
      unfold tallyStep
      rcases hq with h1 | h1 | h1
      · exact ⟨_, by rw [if_pos h1]⟩
      · exact ⟨_, by rw [if_neg (by rw [h1]; decide), if_pos h1]⟩
      · exact ⟨_, by rw [if_neg (by rw [h1]; decide), if_neg (by rw [h1]; decide),
          if_pos h1]⟩
    obtain ⟨b2, hb2⟩ := hstep
    obtain ⟨b3, hb3⟩ := ih hrest b2
    refine ⟨b3, ?_⟩
    show (match tallyStep b q with
      | .ok b2 => tally b2 rest
      | .error e => .error e) = .ok b3
    rw [hb2]
    exact hb3

/-- C3 (amended): for every non-empty history whose records all carry a
recognized difficulty, an empty one or none at all, the analytics operation
succeeds and its average difficulty score is the arithmetic mean of the
per-record weights Easy = 1, Medium = 2, Hard = 3 (falsy difficulty weighted
as Medium), reported to one decimal place; a record with an unrecognized
non-empty difficulty instead makes the endpoint fail with a 500. -/
theorem c3_theorem (history : List QuestionRecord) (hne : history ≠ [])
    (hknown : ∀ q ∈ history, knownOrFalsyDifficulty q) :
    ∃ a, analyticsHandler (some history) = .ok (.summary a) ∧
      a.averageDifficulty = ((history.map specWeight).sum) / (history.length : ℚ) ∧
      a.averageDifficultyTenths =
        toFixedTenths (((history.map specWeight).sum) / (history.length : ℚ)) := by
  obtain ⟨byD, hb⟩ := tally_ok history hknown initByDifficulty
  refine ⟨mkAnalytics history byD, ?_, ?_, ?_⟩
  · show (if history.length = 0 then Except.ok AnalyticsResult.emptyState
      else match tally initByDifficulty history with
        | .error e => .error e
        | .ok byD2 => .ok (.summary (mkAnalytics history byD2))) =
      .ok (.summary (mkAnalytics history byD))
    rw [if_neg (fun h0 => hne (List.length_eq_zero.mp h0)), hb]
  · show ((history.map difficultyWeight).sum) /
        (((history.map difficultyWeight).length : Nat) : ℚ) = _
    rw [difficultyWeight_eq_spec, List.length_map]
  · show toFixedTenths (((history.map difficultyWeight).sum) /
        (((history.map difficultyWeight).length : Nat) : ℚ)) = _
    rw [difficultyWeight_eq_spec, List.length_map]

/-- A history of a correct Easy answer and a correct answer with no recorded
difficulty. -/
def historyTwoRecords : List QuestionRecord :=
  [{ difficulty := some "fácil", correct := true }, { correct := true }]

/-- C3 witness: the amended statement applied to a two-record history (one
Easy record and one with no difficulty, weighted 1 and 2). -/
theorem c3_witness :
    ∃ a, analyticsHandler (some historyTwoRecords) = .ok (.summary a) ∧
      a.averageDifficulty =
        ((historyTwoRecords.map specWeight).sum) / (historyTwoRecords.length : ℚ) ∧
      a.averageDifficultyTenths =
        toFixedTenths (((historyTwoRecords.map specWeight).sum) /
          (historyTwoRecords.length : ℚ)) :=
  c3_theorem historyTwoRecords (by decide) (by decide)

theorem strengthEntry_some {e : String × TierCount} {pair : String × ℤ}
    (h : (if 0 < e.2.total ∧ 75 ≤ tierAccuracy e.2
        then some (e.1, jsRound (tierAccuracy e.2)) else none) = some pair) :
    pair.1 = e.1 ∧ 0 < e.2.total ∧ 75 ≤ tierAccuracy e.2 := by
  split_ifs at h with hc
  have h2 := (Option.some.injEq _ _).mp h
  exact ⟨by rw [← h2], hc.1, hc.2⟩

theorem improvementEntry_some {e : String × TierCount} {pair : String × ℤ}
    (h : (if 0 < e.2.total ∧ tierAccuracy e.2 < 50
        then some (e.1, jsRound (tierAccuracy e.2)) else none) = some pair) :
    pair.1 = e.1 ∧ 0 < e.2.total ∧ tierAccuracy e.2 < 50 := by
  split_ifs at h with hc
  have h2 := (Option.some.injEq _ _).mp h
  exact ⟨by rw [← h2], hc.1, hc.2⟩

/-- Membership in `strengthAreas` is exactly accuracy ≥ 75 over attempted
tiers. -/
theorem mem_strengthAreas (b : ByDifficulty) (name : String) (cnt : TierCount)
    (hmem : (name, cnt) ∈ tierEntries b) (hpos : 0 < cnt.total) :
    name ∈ (strengthAreasOf b).map Prod.fst ↔ 75 ≤ tierAccuracy cnt := by
  simp only [tierEntries, List.mem_cons, List.mem_singleton, List.not_mem_nil,
    or_false, Prod.mk.injEq] at hmem
  constructor
  · intro hmem2
    rw [List.mem_map] at hmem2
    obtain ⟨pair, hp, hp1⟩ := hmem2
    unfold strengthAreasOf at hp
    rw [List.mem_filterMap] at hp
    obtain ⟨e, he, hfe⟩ := hp
    obtain ⟨hpe, hpos2, hacc⟩ := strengthEntry_some hfe
    rw [hp1] at hpe
    simp only [tierEntries, List.mem_cons, List.mem_singleton, List.not_mem_nil,
      or_false] at he
    rcases hmem with ⟨hn, hc⟩ | ⟨hn, hc⟩ | ⟨hn, hc⟩ <;> subst hn <;> subst hc <;>
      rcases he with rfl | rfl | rfl <;>
      first
        | exact hacc
        | exact absurd hpe (by simp)
  · intro hacc
    rw [List.mem_map]
    rcases hmem with ⟨hn, hc⟩ | ⟨hn, hc⟩ | ⟨hn, hc⟩ <;> subst hn <;> subst hc
    · refine ⟨("fácil", jsRound (tierAccuracy b.facil)), ?_, rfl⟩
      unfold strengthAreasOf
      rw [List.mem_filterMap]
      exact ⟨("fácil", b.facil), by simp [tierEntries], by rw [if_pos ⟨hpos, hacc⟩]⟩
    · refine ⟨("medio", jsRound (tierAccuracy b.medioTier)), ?_, rfl⟩
      unfold strengthAreasOf
      rw [List.mem_filterMap]
      exact ⟨("medio", b.medioTier), by simp [tierEntries], by rw [if_pos ⟨hpos, hacc⟩]⟩
    · refine ⟨("difícil", jsRound (tierAccuracy b.dificil)), ?_, rfl⟩
      unfold strengthAreasOf
      rw [List.mem_filterMap]
      exact ⟨("difícil", b.dificil), by simp [tierEntries], by rw [if_pos ⟨hpos, hacc⟩]⟩

/-- Membership in `improvementAreas` is exactly accuracy < 50 over attempted
tiers. -/
theorem mem_improvementAreas (b : ByDifficulty) (name : String) (cnt : TierCount)
    (hmem : (name, cnt) ∈ tierEntries b) (hpos : 0 < cnt.total) :
    name ∈ (improvementAreasOf b).map Prod.fst ↔ tierAccuracy cnt < 50 := by
  simp only [tierEntries, List.mem_cons, List.mem_singleton, List.not_mem_nil,
    or_false, Prod.mk.injEq] at hmem
  constructor
  · intro hmem2
    rw [List.mem_map] at hmem2
    obtain ⟨pair, hp, hp1⟩ := hmem2
    unfold improvementAreasOf at hp
    rw [List.mem_filterMap] at hp
    obtain ⟨e, he, hfe⟩ := hp
    obtain ⟨hpe, hpos2, hacc⟩ := improvementEntry_some hfe
    rw [hp1] at hpe
    simp only [tierEntries, List.mem_cons, List.mem_singleton, List.not_mem_nil,
      or_false] at he
    rcases hmem with ⟨hn, hc⟩ | ⟨hn, hc⟩ | ⟨hn, hc⟩ <;> subst hn <;> subst hc <;>
      rcases he with rfl | rfl | rfl <;>
      first
        | exact hacc
        | exact absurd hpe (by simp)
  · intro hacc
    rw [List.mem_map]
    rcases hmem with ⟨hn, hc⟩ | ⟨hn, hc⟩ | ⟨hn, hc⟩ <;> subst hn <;> subst hc
    · refine ⟨("fácil", jsRound (tierAccuracy b.facil)), ?_, rfl⟩
      unfold improvementAreasOf
      rw [List.mem_filterMap]
      exact ⟨("fácil", b.facil), by simp [tierEntries], by rw [if_pos ⟨hpos, hacc⟩]⟩
    · refine ⟨("medio", jsRound (tierAccuracy b.medioTier)), ?_, rfl⟩
      unfold improvementAreasOf
      rw [List.mem_filterMap]
      exact ⟨("medio", b.medioTier), by simp [tierEntries], by rw [if_pos ⟨hpos, hacc⟩]⟩
    · refine ⟨("difícil", jsRound (tierAccuracy b.dificil)), ?_, rfl⟩
      unfold improvementAreasOf
      rw [List.mem_filterMap]
      exact ⟨("difícil", b.dificil), by simp [tierEntries], by rw [if_pos ⟨hpos, hacc⟩]⟩

/-- Inverts a successful analytics run into its tally. -/
theorem analyticsHandler_inv (history : List QuestionRecord) (a : AnalyticsSummary)
    (h : analyticsHandler (some history) = .ok (.summary a)) :
    ∃ byD, tally initByDifficulty history = .ok byD ∧ a = mkAnalytics history byD := by
  have h2 : (if history.length = 0 then Except.ok AnalyticsResult.emptyState
      else match tally initByDifficulty history with
        | .error e => .error e
        | .ok byD => .ok (.summary (mkAnalytics history byD))) =
      .ok (.summary a) := h
  split_ifs at h2 with h0
  · have h3 := (Except.ok.injEq _ _).mp h2
    simp at h3
  · split at h2
    · simp at h2
    · rename_i byD hbd
      refine ⟨byD, hbd, ?_⟩
      have h3 := (Except.ok.injEq _ _).mp h2
      exact ((AnalyticsResult.summary.injEq _ _).mp h3).symm

/-- C8: over every history for which the analytics endpoint produces a
summary, a difficulty tier with at least one recorded attempt appears in
`strengthAreas` iff its per-tier accuracy is at least 75, and in
`improvementAreas` iff its accuracy is below 50; a tier at exactly 75 appears
in `strengthAreas`, and a tier at exactly 50 appears in neither list. -/
theorem c8_theorem (history : List QuestionRecord) (a : AnalyticsSummary)
    (name : String) (cnt : TierCount)
    (hres : analyticsHandler (some history) = .ok (.summary a))
    (hmem : (name, cnt) ∈ tierEntries a.byDifficulty)
    (hpos : 0 < cnt.total) :
    (name ∈ a.strengthAreas.map Prod.fst ↔ 75 ≤ tierAccuracy cnt) ∧
    (name ∈ a.improvementAreas.map Prod.fst ↔ tierAccuracy cnt < 50) ∧
    (tierAccuracy cnt = 75 → name ∈ a.strengthAreas.map Prod.fst) ∧
    (tierAccuracy cnt = 50 →
      name ∉ a.strengthAreas.map Prod.fst ∧ name ∉ a.improvementAreas.map Prod.fst) := by
  obtain ⟨byD, htally, ha⟩ := analyticsHandler_inv history a hres
  subst ha
  have hmem2 : (name, cnt) ∈ tierEntries byD := hmem
  have hs := mem_strengthAreas byD name cnt hmem2 hpos
  have hi := mem_improvementAreas byD name cnt hmem2 hpos
  refine ⟨hs, hi, fun h75 => hs.mpr (le_of_eq h75.symm), fun h50 => ⟨?_, ?_⟩⟩
  · intro hin
    have hx := hs.mp hin
    rw [h50] at hx
    norm_num at hx
  · intro hin
    have hx := hi.mp hin
    rw [h50] at hx
    norm_num at hx

/-- An Easy-difficulty record with the given correctness. -/
def facilRecord (c : Bool) : QuestionRecord :=
  { difficulty := some "fácil", correct := c }

/-- Four Easy records, three of them correct: a 75 percent tier. -/
def historyFourFacil : List QuestionRecord :=
  [facilRecord true, facilRecord true, facilRecord true, facilRecord false]

/-- C8 witness: an Easy tier with 3 of 4 correct (exactly 75 percent) appears
in `strengthAreas`. -/
theorem c8_witness :
    "fácil" ∈ (mkAnalytics historyFourFacil
        { facil := ⟨3, 4⟩, medioTier := ⟨0, 0⟩, dificil := ⟨0, 0⟩ }).strengthAreas.map
        Prod.fst :=
  (c8_theorem historyFourFacil
      (mkAnalytics historyFourFacil
        { facil := ⟨3, 4⟩, medioTier := ⟨0, 0⟩, dificil := ⟨0, 0⟩ })
      "fácil" ⟨3, 4⟩ rfl (by decide) (by decide)).2.2.1
    (by norm_num [tierAccuracy])
